import Mathlib

/-!
Verification of the Pichop table-screenshot cropper core.

This file shallow-embeds the algorithmic core of the repository:

* the data model (`Rect`, `GridLine`, `Grid`, ranges) from `src/types.ts`;
* the selection-to-range pipeline, merged removal ranges, final dimensions
  and the grid coordinate remap of `processImageCrop`
  (`src/components/ImageCropper/logic/imageProcessor.ts`);
* the eraser `performErase` and the lattice flood fill `getActualCells`
  (`src/unnamed/part_002`, the module imported as `gridManipulation`);
* the smart seam planner `getRegionEnergy` / `findSafeZone` /
  `getStripOperations` / `invertRanges` (`src/unnamed/part_001`);
* the grid detector `detectGrid` (`src/components/ImageCropper/logic/gridDetection.ts`).

Numbers: the TypeScript code computes with IEEE doubles, but every operation
it performs on coordinates (floor, ceil, max, min, +, -, *, /, comparisons)
is exact on rationals for the inputs considered here, so coordinates and
energies are embedded as `ℚ` and raw pixel samples as `ℕ`.  JavaScript's
`Array.prototype.sort` with a numeric comparator is modelled by
`List.insertionSort` (a stable sort, as ES2019 `sort` is).  The TypeScript
field `end` is rendered as `end_` because `end` is a Lean keyword.
-/

namespace Pichop

set_option maxRecDepth 100000

/-- Crop mode, from `src/types.ts` (`CropMode`). -/
inductive CropMode where
  | horizontal
  | vertical
  | both
  deriving DecidableEq, Repr

/-- A rectangle `{x, y, w, h}` in image pixel space, from `src/types.ts`. -/
structure Rect where
  x : ℚ
  y : ℚ
  w : ℚ
  h : ℚ
  deriving DecidableEq, Repr

/-- A grid line `{pos, thickness, start, end}`, from `src/types.ts`. -/
structure GridLine where
  pos : ℚ
  thickness : ℚ
  start : ℚ
  end_ : ℚ
  deriving DecidableEq, Repr

/-- A grid `{horizontal, vertical}`, from `src/types.ts`. -/
structure Grid where
  horizontal : List GridLine
  vertical : List GridLine
  deriving DecidableEq, Repr

/-- A half-open-ish numeric range `{start, end}` as used for removal ranges
in `imageProcessor.ts`. -/
structure Range where
  start : ℚ
  end_ : ℚ
  deriving DecidableEq, Repr

/-- The dimensional part of a history item (`src/types.ts`, `HistoryItem`);
the raster `dataUrl` is not needed for the properties proved here. -/
structure HistoryItem where
  width : ℚ
  height : ℚ
  deriving DecidableEq, Repr

/-- Sort ranges by `start`, as `ranges.sort((a, b) => a.start - b.start)`. -/
def sortRangesByStart (ranges : List Range) : List Range :=
  List.insertionSort (fun a b => a.start ≤ b.start) ranges

/-- The merging loop of `mergeRanges` in `processImageCrop`
(`imageProcessor.ts`): the current accumulated range `prev` absorbs the next
range when `curr.start < prev.end + 1`, extending `prev.end` to the max. -/
def mergeLoop (prev : Range) : List Range → List Range
  | [] => [prev]
  | c :: rest =>
    if c.start < prev.end_ + 1 then mergeLoop ⟨prev.start, max prev.end_ c.end_⟩ rest
    else prev :: mergeLoop c rest

/-- `mergeRanges` from `processImageCrop` (`imageProcessor.ts`): sort by
`start`, then sweep, merging ranges that touch within 1px. -/
def mergeRanges (ranges : List Range) : List Range :=
  match sortRangesByStart ranges with
  | [] => []
  | r :: rs => mergeLoop r rs

/-- The X removal range of one selection, from `processImageCrop`
(`imageProcessor.ts` lines 210–217): `rx = floor(s.x)`,
`rw = ceil(|s.w|)`, and `rx -= rw` when `s.w < 0`. -/
def selectionXRange (s : Rect) : Range :=
  let rx : ℤ := ⌊s.x⌋
  let rw : ℤ := ⌈|s.w|⌉
  let rx' : ℤ := if s.w < 0 then rx - rw else rx
  ⟨(rx' : ℚ), ((rx' + rw : ℤ) : ℚ)⟩

/-- The Y removal range of one selection, mirroring `selectionXRange`. -/
def selectionYRange (s : Rect) : Range :=
  let ry : ℤ := ⌊s.y⌋
  let rh : ℤ := ⌈|s.h|⌉
  let ry' : ℤ := if s.h < 0 then ry - rh else ry
  ⟨(ry' : ℚ), ((ry' + rh : ℤ) : ℚ)⟩

/-- `globalXRanges` of `processImageCrop`: column ranges are removed only in
modes `vertical` and `both`. -/
def globalXRanges (selections : List Rect) (mode : CropMode) : List Range :=
  if mode = CropMode.vertical ∨ mode = CropMode.both then
    mergeRanges (selections.map selectionXRange)
  else []

/-- `globalYRanges` of `processImageCrop`: row ranges are removed only in
modes `horizontal` and `both`. -/
def globalYRanges (selections : List Rect) (mode : CropMode) : List Range :=
  if mode = CropMode.horizontal ∨ mode = CropMode.both then
    mergeRanges (selections.map selectionYRange)
  else []

/-- `removeW` / `removeH` accumulation:
`ranges.reduce((acc, r) => acc + (r.end - r.start), 0)`. -/
def rangesTotal (ranges : List Range) : ℚ :=
  ranges.foldl (fun acc r => acc + (r.end_ - r.start)) 0

/-- The cumulative shift of `mapX` / `mapY` in `processImageCrop`
(`imageProcessor.ts` lines 343–358): for each removal range, add the full
range size when the coordinate is at or past its end, or the partial overlap
when strictly inside. -/
def shiftAmount (ranges : List Range) (c : ℚ) : ℚ :=
  ranges.foldl
    (fun shift r =>
      if c ≥ r.end_ then shift + (r.end_ - r.start)
      else if c > r.start then shift + (c - r.start)
      else shift) 0

/-- `mapX` / `mapY` from `processImageCrop`: subtract the cumulative shift. -/
def mapCoord (ranges : List Range) (c : ℚ) : ℚ :=
  c - shiftAmount ranges c

/-- The removal test of the grid-persistence step: a line is dropped when its
`pos` lies strictly inside some removal range on its own axis. -/
def lineRemoved (ranges : List Range) (pos : ℚ) : Bool :=
  ranges.any (fun r => decide (pos > r.start) && decide (pos < r.end_))

/-- Remap of one horizontal line (grid persistence in `processImageCrop`):
`pos` through the Y map, `start`/`end` through the X map. -/
def remapLineH (xRs yRs : List Range) (l : GridLine) : Option GridLine :=
  if lineRemoved yRs l.pos then none
  else some ⟨mapCoord yRs l.pos, l.thickness, mapCoord xRs l.start, mapCoord xRs l.end_⟩

/-- Remap of one vertical line: `pos` through the X map, `start`/`end`
through the Y map. -/
def remapLineV (xRs yRs : List Range) (l : GridLine) : Option GridLine :=
  if lineRemoved xRs l.pos then none
  else some ⟨mapCoord xRs l.pos, l.thickness, mapCoord yRs l.start, mapCoord yRs l.end_⟩

/-- The grid-persistence step of `processImageCrop` (lines 360–376):
`.map(...).filter(Boolean)` on each axis, i.e. a `filterMap`. -/
def remapGrid (xRs yRs : List Range) (g : Grid) : Grid :=
  { horizontal := g.horizontal.filterMap (remapLineH xRs yRs)
    vertical := g.vertical.filterMap (remapLineV xRs yRs) }

/-- The interface result of `processImageCrop`: reported width, height and
the remapped grid (the raster itself is produced by canvas drawing and has no
bearing on these outputs). -/
structure CropOutput where
  width : ℚ
  height : ℚ
  grid : Option Grid
  deriving DecidableEq, Repr

/-- The width/height/grid outputs of `processImageCrop`
(`imageProcessor.ts` lines 184–386).  `smartMode` is threaded through
because it is a parameter of the source function; in the source it only
selects how pixels are composited (cells, strips, draw operations) and is
never read by the dimension computation or the grid persistence step. -/
def processImageCrop (item : HistoryItem) (selections : List Rect)
    (grid : Option Grid) (mode : CropMode) (smartMode : Bool) : CropOutput :=
  let xRs := globalXRanges selections mode
  let yRs := globalYRanges selections mode
  let finalW := max 1 (item.width - rangesTotal xRs)
  let finalH := max 1 (item.height - rangesTotal yRs)
  { width := finalW
    height := finalH
    grid := grid.map (remapGrid xRs yRs) }

/-! ### GridEditor: `performErase` (`src/unnamed/part_002`, `gridManipulation`) -/

/-- A pointer position in image space. -/
structure Point where
  x : ℚ
  y : ℚ
  deriving DecidableEq, Repr

/-- The axis being processed by `processLines` (`'h'` or `'v'`). -/
inductive Axis where
  | h
  | v
  deriving DecidableEq, Repr

/-- The eligibility test of `performErase`
(`src/unnamed/part_002` line 22): the cursor's main-axis coordinate is within
`threshold` of the line's `pos` and its cross-axis coordinate lies inside the
line's span (inclusive). -/
def lineHit (threshold main cross : ℚ) (line : GridLine) : Bool :=
  decide (|line.pos - main| < threshold) &&
  decide (cross ≥ line.start) && decide (cross ≤ line.end_)

/-- Positions of perpendicular lines whose span covers `pos`, sorted
ascending (`src/unnamed/part_002` lines 29–33). -/
def sortedCrossings (perpLines : List GridLine) (pos : ℚ) : List ℚ :=
  List.insertionSort (fun a b => a ≤ b)
    ((perpLines.filter (fun p => decide (p.start ≤ pos) && decide (p.end_ ≥ pos))).map
      (fun p => p.pos))

/-- The bracket-finding loop of segment erase
(`src/unnamed/part_002` lines 35–42): walk the crossings; each crossing
`p ≤ cross` raises `segStart` to `max segStart p`; the first crossing
`p > cross` lowers `segEnd` to `min segEnd p` and stops the walk. -/
def bracketLoop (cross segStart segEnd : ℚ) : List ℚ → ℚ × ℚ
  | [] => (segStart, segEnd)
  | p :: ps =>
    if p ≤ cross then bracketLoop cross (max segStart p) segEnd ps
    else (segStart, min segEnd p)

/-- The fragments re-inserted by segment erase
(`src/unnamed/part_002` lines 44–50): a left remainder when
`segStart > start + 1` and a right remainder when `segEnd < end - 1`. -/
def segmentFragments (line : GridLine) (crossings : List ℚ) (cross : ℚ) : List GridLine :=
  let se := bracketLoop cross line.start line.end_ crossings
  (if se.1 > line.start + 1 then [{ line with end_ := se.1 }] else []) ++
  (if se.2 < line.end_ - 1 then [{ line with start := se.2 }] else [])

/-- `processLines` of `performErase`: walk the lines of one axis, erasing
(line mode) or splitting (segment mode) every eligible line and keeping the
rest; the second component is the `changed` flag. -/
def processLines (threshold : ℚ) (coords : Point) (isLineMode : Bool)
    (perpLines : List GridLine) (axis : Axis) :
    List GridLine → List GridLine × Bool
  | [] => ([], false)
  | line :: rest =>
    let tail := processLines threshold coords isLineMode perpLines axis rest
    let main := match axis with | Axis.h => coords.y | Axis.v => coords.x
    let cross := match axis with | Axis.h => coords.x | Axis.v => coords.y
    if lineHit threshold main cross line then
      if isLineMode then (tail.1, true)
      else (segmentFragments line (sortedCrossings perpLines line.pos) cross ++ tail.1, true)
    else (line :: tail.1, tail.2)

/-- `performErase` (`src/unnamed/part_002` lines 3–65): threshold is
`20 / scale`; both axes are processed (crossings always against the input
grid's arrays); returns `none` when nothing changed. -/
def performErase (grid : Option Grid) (coords : Point) (isLineMode : Bool)
    (scale : ℚ) : Option Grid :=
  match grid with
  | none => none
  | some g =>
    let threshold := 20 / scale
    let resH := processLines threshold coords isLineMode g.vertical Axis.h g.horizontal
    let resV := processLines threshold coords isLineMode g.horizontal Axis.v g.vertical
    if resH.2 || resV.2 then some ⟨resH.1, resV.1⟩ else none

/-! ### LatticeResolver: `getActualCells` (`src/unnamed/part_002`) -/

/-- `Array.from(new Set(l)).sort((a,b) => a-b)`: the sorted list of distinct
values. -/
def dedupSortedNums (l : List ℚ) : List ℚ :=
  List.insertionSort (fun a b => a ≤ b) l.dedup

/-- Tail of the 1px de-duplication filter
`filter((v, i) => i === 0 || v > arr[i-1] + 1)`: each element is compared
with its predecessor in the original array. -/
def filterCloseGo (prev : ℚ) : List ℚ → List ℚ
  | [] => []
  | y :: ys => if y > prev + 1 then y :: filterCloseGo y ys else filterCloseGo y ys

/-- The 1px de-duplication filter used on lattice positions and strip
boundaries. -/
def filterClose : List ℚ → List ℚ
  | [] => []
  | x :: xs => x :: filterCloseGo x xs

/-- The wall test of the flood fill (`src/unnamed/part_002` lines 119–133):
some line on the relevant axis has `pos` within 2px of the shared boundary
and overlaps the shared edge by more than 1px. -/
def hasWallBetween (lines : List GridLine) (pos s e : ℚ) : Bool :=
  lines.any (fun line =>
    decide (|line.pos - pos| < 2) &&
    decide (max line.start s < min line.end_ e - 1))

/-- A candidate neighbor of an atomic block: target column/row (as integers,
before the bounds check), the axis of the separating wall, the wall
coordinate, and the shared-edge span. -/
structure NeighborSpec where
  nc : ℤ
  nr : ℤ
  wallAxis : Axis
  wallPos : ℚ
  s : ℚ
  e : ℚ

/-- The four neighbors of block `(c, r)` in source order
(right, left, down, up), from `src/unnamed/part_002` lines 103–108. -/
def neighborSpecs (u_xs u_ys : List ℚ) (c r : ℕ) : List NeighborSpec :=
  let cx1 := u_xs.getD c 0
  let cx2 := u_xs.getD (c+1) 0
  let cy1 := u_ys.getD r 0
  let cy2 := u_ys.getD (r+1) 0
  [ ⟨(c : ℤ) + 1, r, Axis.v, cx2, cy1, cy2⟩,
    ⟨(c : ℤ) - 1, r, Axis.v, cx1, cy1, cy2⟩,
    ⟨(c : ℤ), (r : ℤ) + 1, Axis.h, cy2, cx1, cx2⟩,
    ⟨(c : ℤ), (r : ℤ) - 1, Axis.h, cy1, cx1, cx2⟩ ]

/-- Process the four neighbors of the current block: skip out-of-lattice,
already-visited, or walled-off neighbors; otherwise mark visited and
enqueue. -/
def visitNeighbors (g : Grid) (u_xs u_ys : List ℚ) (c r : ℕ) :
    List (ℕ × ℕ) × List (ℕ × ℕ) → List (ℕ × ℕ) × List (ℕ × ℕ) :=
  fun st =>
    (neighborSpecs u_xs u_ys c r).foldl
      (fun (st : List (ℕ × ℕ) × List (ℕ × ℕ)) n =>
        if n.nc < 0 || n.nc ≥ (u_xs.length : ℤ) - 1 ||
           n.nr < 0 || n.nr ≥ (u_ys.length : ℤ) - 1 then st
        else
          let key := (n.nc.toNat, n.nr.toNat)
          if key ∈ st.1 then st
          else
            let lines := match n.wallAxis with
              | Axis.v => g.vertical
              | Axis.h => g.horizontal
            if hasWallBetween lines n.wallPos n.s n.e then st
            else (st.1 ++ [key], st.2 ++ [key]))
      st

/-- The flood-fill loop (`src/unnamed/part_002` lines 93–140), with explicit
fuel: pop the queue front (`queue.shift()`), grow the bounding box by the
popped block, and visit its neighbors.  The fuel is chosen by the caller to
exceed the number of lattice blocks, so it never runs out: every enqueued
block was freshly marked visited, hence at most `rows*cols` pops occur. -/
def bfsLoop (g : Grid) (u_xs u_ys : List ℚ) :
    ℕ → List (ℕ × ℕ) → List (ℕ × ℕ) → ℚ × ℚ × ℚ × ℚ →
    List (ℕ × ℕ) × (ℚ × ℚ × ℚ × ℚ)
  | 0, visited, _, box => (visited, box)
  | _ + 1, visited, [], box => (visited, box)
  | fuel + 1, visited, cr :: queueRest, box =>
    let c := cr.1
    let r := cr.2
    let cx1 := u_xs.getD c 0
    let cx2 := u_xs.getD (c+1) 0
    let cy1 := u_ys.getD r 0
    let cy2 := u_ys.getD (r+1) 0
    let box' := (min box.1 cx1, max box.2.1 cx2, min box.2.2.1 cy1, max box.2.2.2 cy2)
    let st := visitNeighbors g u_xs u_ys c r (visited, queueRest)
    bfsLoop g u_xs u_ys fuel st.1 st.2 box'

/-- `getActualCells` (`src/unnamed/part_002` lines 68–146): build the atomic
lattice from all line positions plus the canvas borders, then flood-fill
components of blocks not separated by walls, emitting each component's
bounding box as a cell, in row-major visiting order. -/
def getActualCells (grid : Grid) (w h : ℚ) : List Rect :=
  let ys := dedupSortedNums (grid.horizontal.map (fun l => l.pos) ++ [0, h])
  let xs := dedupSortedNums (grid.vertical.map (fun l => l.pos) ++ [0, w])
  let u_ys := filterClose ys
  let u_xs := filterClose xs
  let rows := u_ys.length - 1
  let cols := u_xs.length - 1
  let blocks := ((List.range rows).map
    (fun r => (List.range cols).map (fun c => (c, r)))).flatten
  let fuel := rows * cols + 1
  (blocks.foldl
    (fun (st : List (ℕ × ℕ) × List Rect) cr =>
      if cr ∈ st.1 then st
      else
        let c := cr.1
        let r := cr.2
        let box0 := (u_xs.getD c 0, u_xs.getD (c+1) 0, u_ys.getD r 0, u_ys.getD (r+1) 0)
        let res := bfsLoop grid u_xs u_ys fuel (st.1 ++ [cr]) [cr] box0
        let box := res.2
        (res.1, st.2 ++ [⟨box.1, box.2.2.1, box.2.1 - box.1, box.2.2.2 - box.2.2.1⟩]))
    ([], [])).2

/-! ### SeamPlanner (`src/unnamed/part_001`) -/

/-- A draw instruction `{srcStart, srcLen, destLen}` for the renderer. -/
structure DrawOperation where
  srcStart : ℚ
  srcLen : ℚ
  destLen : ℚ
  deriving DecidableEq, Repr

/-- A decoded RGBA buffer (`Uint8ClampedArray`) as its byte length together
with a total read function.  JavaScript indexes the array with arbitrary
numbers, so the read function is total on `ℚ`; every index actually used in
the theorems below is a natural number. -/
structure ImageBytes where
  len : ℕ
  get : ℚ → ℕ

/-- The values taken by `for (v = lo; v < hi; v += 2)`. -/
def stride2Lt (lo hi : ℚ) : List ℚ :=
  (List.range (((hi - lo) / 2).ceil.toNat)).map (fun k => lo + 2 * k)

/-- The values taken by `for (v = lo; v <= hi; v += 2)` (assuming
`lo ≤ hi`; callers guard this). -/
def stride2Le (lo hi : ℚ) : List ℚ :=
  (List.range (((hi - lo) / 2).floor.toNat + 1)).map (fun k => lo + 2 * k)

/-- One sampled adjacent-pixel pair of `getRegionEnergy`
(`src/unnamed/part_001` lines 36–52): accumulate
`|ΔR|+|ΔG|+|ΔB|`, plus a base penalty of 20 when the left pixel's
brightness `(R+G+B)/3` is below 230, and count the sample. -/
def energyStep (data : ImageBytes) (width : ℚ) (acc : ℚ × ℕ) (yx : ℚ × ℚ) : ℚ × ℕ :=
  let idx := (yx.1 * width + yx.2) * 4
  let r1 := data.get idx
  let g1 := data.get (idx + 1)
  let b1 := data.get (idx + 2)
  let r2 := data.get (idx + 4)
  let g2 := data.get (idx + 5)
  let b2 := data.get (idx + 6)
  let brightness : ℚ := ((r1 : ℚ) + g1 + b1) / 3
  let diff : ℚ := |(r1 : ℚ) - r2| + |(g1 : ℚ) - g2| + |(b1 : ℚ) - b2|
  if brightness < 230 then (acc.1 + (diff + 20), acc.2 + 1)
  else (acc.1 + diff, acc.2 + 1)

/-- `getRegionEnergy` (`src/unnamed/part_001` lines 19–56): average, over
stride-2-sampled adjacent-pixel pairs of the clamped region, of the energy
step; 0 when no pair was sampled. -/
def getRegionEnergy (data : ImageBytes) (width startX startY w h : ℚ) : ℚ :=
  let maxY := min (startY + h) ((data.len : ℚ) / 4 / width)
  let maxX := min (startX + w) width
  let ys := stride2Lt (max 0 startY) maxY
  let xs := stride2Lt (max 0 startX) (maxX - 1)
  let pairs := (ys.map (fun y => xs.map (fun x => (y, x)))).flatten
  let res := pairs.foldl (energyStep data width) (0, 0)
  if res.2 > 0 then res.1 / (res.2 : ℚ) else 0

/-- The minimum-energy fold of `findSafeZone`: strict improvement replaces
the best candidate; `none` plays the role of the initial `Infinity`. -/
def safeZoneFold (eval : ℚ → ℚ) (defaultStart : ℚ) (cands : List ℚ) : ℚ × Option ℚ :=
  cands.foldl
    (fun (best : ℚ × Option ℚ) v =>
      let energy := eval v
      match best.2 with
      | none => (v, some energy)
      | some be => if energy < be then (v, some energy) else best)
    (defaultStart, none)

/-- `findSafeZone` (`src/unnamed/part_001` lines 59–104): slide a window of
`targetSize` inside the cell (2px padding, step 2) and return the position
of minimal `getRegionEnergy`; when the window does not fit, return the
default position with infinite energy (modelled as `none`). -/
def findSafeZone (data : ImageBytes) (imgW imgH : ℚ) (cell : Rect)
    (targetSize defaultStart : ℚ) (isVertical : Bool) : ℚ × Option ℚ :=
  if isVertical then
    let searchStart := cell.y + 2
    let searchEnd := cell.y + cell.h - targetSize - 2
    if searchEnd ≤ searchStart then (defaultStart, none)
    else safeZoneFold
      (fun y => getRegionEnergy data imgW cell.x y cell.w targetSize)
      defaultStart (stride2Le searchStart searchEnd)
  else
    let searchStart := cell.x + 2
    let searchEnd := cell.x + cell.w - targetSize - 2
    if searchEnd ≤ searchStart then (defaultStart, none)
    else safeZoneFold
      (fun x => getRegionEnergy data imgW x cell.y targetSize cell.h)
      defaultStart (stride2Le searchStart searchEnd)

/-- The cursor recursion of `invertRanges` (`src/unnamed/part_001`
lines 241–252), on the already-sorted range list. -/
def invertGo (totalSize : ℚ) (cursor : ℚ) : List Range → List Range
  | [] => if cursor < totalSize then [⟨cursor, totalSize⟩] else []
  | r :: rs =>
    (if r.start > cursor then [⟨cursor, r.start⟩] else []) ++
    invertGo totalSize (max cursor r.end_) rs

/-- `invertRanges`: sort the removal ranges by `start` and emit the
complementary keep ranges within `[0, totalSize]`. -/
def invertRanges (totalSize : ℚ) (removeRanges : List Range) : List Range :=
  invertGo totalSize 0 (sortRangesByStart removeRanges)

/-- Association-list model of the `Map<number, number>` `cellSquishMap`
(`Map.get`, returning `undefined` as `none`). -/
def squishGet (m : List (ℕ × ℚ)) (k : ℕ) : Option ℚ :=
  (m.find? (fun p => p.1 = k)).map (fun p => p.2)

/-- `Map.set`: replace in place when the key exists, else append. -/
def squishSet (m : List (ℕ × ℚ)) (k : ℕ) (v : ℚ) : List (ℕ × ℚ) :=
  if m.any (fun p => p.1 = k) then
    m.map (fun p => if p.1 = k then (k, v) else p)
  else m ++ [(k, v)]

/-- The per-removal-range cell-conflict test of `getStripOperations`
(`src/unnamed/part_001` lines 140–150): the cell must physically overlap the
strip, and the cut must pass through the cell (5px slack). -/
def cutConflictsCell (isVerticalCut : Bool) (stripStart stripEnd : ℚ)
    (r : Range) (c : Rect) : Bool :=
  if isVerticalCut then
    decide (c.x < stripEnd) && decide (c.x + c.w > stripStart) &&
    decide (c.y ≤ r.start + 5) && decide (c.y + c.h ≥ r.end_ - 5)
  else
    decide (c.y < stripEnd) && decide (c.y + c.h > stripStart) &&
    decide (c.x ≤ r.start + 5) && decide (c.x + c.w ≥ r.end_ - 5)

/-- Step 1 of `getStripOperations` (lines 136–169): classify every removal
range as a relocated physical cut (safe zone found below the 5.0 energy
threshold), a squish quota increment for its conflicting cell, or a plain
gap cut. -/
def classifyRanges (removeRanges : List Range) (axisCells : List Rect)
    (stripStart stripEnd : ℚ) (data : ImageBytes) (imgW imgH : ℚ)
    (isVerticalCut : Bool) : List Range × List (ℕ × ℚ) :=
  removeRanges.foldl
    (fun (st : List Range × List (ℕ × ℚ)) r =>
      let rSize := r.end_ - r.start
      match (axisCells.findIdx? (cutConflictsCell isVerticalCut stripStart stripEnd r)) with
      | some cellIdx =>
        let cell := axisCells.getD cellIdx ⟨0, 0, 0, 0⟩
        let best := findSafeZone data imgW imgH cell rSize r.start isVerticalCut
        let isSafe := match best.2 with
          | some e => decide (e < 5)
          | none => false
        if isSafe then (st.1 ++ [⟨best.1, best.1 + rSize⟩], st.2)
        else
          let current := (squishGet st.2 cellIdx).getD 0
          (st.1, squishSet st.2 cellIdx (current + rSize))
      | none => (st.1 ++ [r], st.2))
    ([], [])

/-- The segment-membership test of step 3 (lines 209–219): the cell must lie
in the current strip and contain the segment midpoint along the cut axis. -/
def midInCell (isVerticalCut : Bool) (stripStart stripEnd mid : ℚ) (c : Rect) : Bool :=
  if isVerticalCut then
    decide (c.x < stripEnd) && decide (c.x + c.w > stripStart) &&
    decide (mid ≥ c.y) && decide (mid ≤ c.y + c.h)
  else
    decide (c.y < stripEnd) && decide (c.y + c.h > stripStart) &&
    decide (mid ≥ c.x) && decide (mid ≤ c.x + c.w)

/-- Adjacent pairs of a list: the micro-segments between consecutive sorted
boundary points. -/
def adjacentPairs : List ℚ → List (ℚ × ℚ)
  | a :: b :: rest => (a, b) :: adjacentPairs (b :: rest)
  | _ => []

/-- `getStripOperations` (`src/unnamed/part_001` lines 107–239): classify
cuts vs squish, collect boundary points, and emit one draw operation per
non-cut micro-segment, scaled by its owning cell's squish debt. -/
def getStripOperations (totalSize : ℚ) (removeRanges : List Range)
    (axisCells : List Rect) (stripStart stripEnd : ℚ) (smartMode : Bool)
    (imgData : Option ImageBytes) (imgW imgH : ℚ) (isVerticalCut : Bool) :
    List DrawOperation :=
  match smartMode, imgData with
  | true, some data =>
    let cls := classifyRanges removeRanges axisCells stripStart stripEnd data imgW imgH isVerticalCut
    let physicalCuts := cls.1
    let cellSquishMap := cls.2
    let boundaryVals : List ℚ :=
      [0, totalSize] ++
      physicalCuts.flatMap (fun r => [r.start, r.end_]) ++
      cellSquishMap.flatMap (fun p =>
        let c := axisCells.getD p.1 ⟨0, 0, 0, 0⟩
        if isVerticalCut then [max 0 c.y, min totalSize (c.y + c.h)]
        else [max 0 c.x, min totalSize (c.x + c.w)])
    let sortedPoints := dedupSortedNums boundaryVals
    (adjacentPairs sortedPoints).foldl
      (fun ops seg =>
        let start := seg.1
        let len := seg.2 - seg.1
        let mid := start + len / 2
        if len ≤ 0 then ops
        else if physicalCuts.any (fun cut => decide (mid ≥ cut.start) && decide (mid ≤ cut.end_)) then ops
        else
          let scale : ℚ :=
            match axisCells.findIdx? (midInCell isVerticalCut stripStart stripEnd mid) with
            | some cellIdx =>
              match squishGet cellSquishMap cellIdx with
              | some squishAmount =>
                let c := axisCells.getD cellIdx ⟨0, 0, 0, 0⟩
                let originalDim := if isVerticalCut then c.h else c.w
                let safeDim := max originalDim 1
                let targetDim := max 1 (safeDim - squishAmount)
                targetDim / safeDim
              | none => 1
            | none => 1
          ops ++ [⟨start, len, len * scale⟩])
      []
  | _, _ =>
    (invertRanges totalSize removeRanges).map
      (fun k => ⟨k.start, k.end_ - k.start, k.end_ - k.start⟩)

/-- Total destination length of a list of draw operations. -/
def opsDestTotal (ops : List DrawOperation) : ℚ :=
  (ops.map (fun op => op.destLen)).sum

/-- Total length of a list of ranges (`Σ (end - start)`). -/
def rangesLenSum (rs : List Range) : ℚ :=
  (rs.map (fun r => r.end_ - r.start)).sum

/-! ### GridDetector (`src/components/ImageCropper/logic/gridDetection.ts`) -/

/-- A detector-internal segment (`src/components/ImageCropper/types.ts`);
the `id` field is bookkeeping never read by the algorithm and is omitted. -/
structure Segment where
  pos : ℚ
  start : ℚ
  end_ : ℚ
  length : ℚ
  deriving DecidableEq, Repr

/-- A decoded RGBA buffer for the detector; every index the detector uses is
a natural number. -/
structure DetectImage where
  len : ℕ
  get : ℕ → ℕ

/-- `getLum`: the unnormalized channel sum `R+G+B` at byte index `idx`. -/
def getLum (img : DetectImage) (idx : ℕ) : ℕ :=
  img.get idx + img.get (idx + 1) + img.get (idx + 2)

/-- Edge test for the horizontal scan (`gridDetection.ts` lines 35–40):
contrast above 40 against the up or down neighbor. -/
def isEdgeH (img : DetectImage) (width y x : ℕ) : Bool :=
  let lum := (getLum img ((y * width + x) * 4) : ℤ)
  let lumUp := (getLum img (((y - 1) * width + x) * 4) : ℤ)
  let lumDown := (getLum img (((y + 1) * width + x) * 4) : ℤ)
  decide ((lum - lumUp).natAbs > 40) || decide ((lum - lumDown).natAbs > 40)

/-- Edge test for the vertical scan (lines 64–69): contrast above 40 against
the left or right neighbor. -/
def isEdgeV (img : DetectImage) (width y x : ℕ) : Bool :=
  let lum := (getLum img ((y * width + x) * 4) : ℤ)
  let lumLeft := (getLum img ((y * width + (x - 1)) * 4) : ℤ)
  let lumRight := (getLum img ((y * width + (x + 1)) * 4) : ℤ)
  decide ((lum - lumLeft).natAbs > 40) || decide ((lum - lumRight).natAbs > 40)

/-- The run-tracking scan of one line (lines 33–55): maintain the start of
the current edge run; on run end emit `(start, x)` when the run length
exceeds `minSegLen`; at end of line close a pending run against the line
length. -/
def scanGo (isEdge : ℕ → Bool) (minSegLen : ℚ) (lineLen : ℕ) :
    ℕ → ℕ → Option ℕ → List (ℕ × ℕ)
  | _, 0, none => []
  | _, 0, some s =>
    if ((lineLen - s : ℕ) : ℚ) > minSegLen then [(s, lineLen)] else []
  | x, rem + 1, st =>
    if isEdge x then scanGo isEdge minSegLen lineLen (x + 1) rem (some (st.getD x))
    else
      match st with
      | none => scanGo isEdge minSegLen lineLen (x + 1) rem none
      | some s =>
        (if ((x - s : ℕ) : ℚ) > minSegLen then [(s, x)] else []) ++
        scanGo isEdge minSegLen lineLen (x + 1) rem none

/-- Scan a full line of `lineLen` pixels for qualifying edge runs. -/
def scanRuns (isEdge : ℕ → Bool) (minSegLen : ℚ) (lineLen : ℕ) : List (ℕ × ℕ) :=
  scanGo isEdge minSegLen lineLen 0 lineLen none

/-- The raw horizontal segments: rows `1 ≤ y ≤ height-2`, scanned
left-to-right. -/
def rawHSegments (img : DetectImage) (width height : ℕ) (minSegLen : ℚ) : List Segment :=
  ((List.range' 1 (height - 2)).map (fun y =>
    (scanRuns (isEdgeH img width y) minSegLen width).map
      (fun se => (⟨y, se.1, se.2, (se.2 - se.1 : ℕ)⟩ : Segment)))).flatten

/-- The raw vertical segments: columns `1 ≤ x ≤ width-2`, scanned
top-to-bottom. -/
def rawVSegments (img : DetectImage) (width height : ℕ) (minSegLen : ℚ) : List Segment :=
  ((List.range' 1 (width - 2)).map (fun x =>
    (scanRuns (fun y => isEdgeV img width y x) minSegLen height).map
      (fun se => (⟨x, se.1, se.2, (se.2 - se.1 : ℕ)⟩ : Segment)))).flatten

/-- `Math.round` of JavaScript: round half toward positive infinity. -/
def jsRound (q : ℚ) : ℤ := ⌊q + 1/2⌋

/-- Grouping loop of `clusterSegments` (lines 113–123): a segment joins the
current group when its `pos` is within 3 of the group's first element. -/
def groupGo (first : Segment) (grp : List Segment) :
    List Segment → List (List Segment)
  | [] => [grp]
  | i :: rest =>
    if |i.pos - first.pos| ≤ 3 then groupGo first (grp ++ [i]) rest
    else grp :: groupGo i [i] rest

/-- Sub-segment merging inside one cluster (lines 99–110): sorted by
`start`, any gap of at most 4px merges, extending the end. -/
def mergeGroupLoop (avgPos : ℚ) (curr : Segment) : List Segment → List Segment
  | [] => [curr]
  | n :: rest =>
    if n.start ≤ curr.end_ + 4 then
      let e := max curr.end_ n.end_
      mergeGroupLoop avgPos ⟨curr.pos, curr.start, e, e - curr.start⟩ rest
    else curr :: mergeGroupLoop avgPos ⟨avgPos, n.start, n.end_, n.length⟩ rest

/-- `processGroup` (lines 95–111): the cluster's position is the rounded
mean of its members' positions; members are sorted by `start` and merged. -/
def processGroup (grp : List Segment) : List Segment :=
  match List.insertionSort (fun a b => a.start ≤ b.start) grp with
  | [] => []
  | g0 :: rest =>
    let avgPos : ℚ := (jsRound ((grp.map (fun s => s.pos)).sum / (grp.length : ℚ)) : ℤ)
    mergeGroupLoop avgPos ⟨avgPos, g0.start, g0.end_, g0.length⟩ rest

/-- `clusterSegments` (lines 88–125): sort by `pos`, group within 3px, and
process each group. -/
def clusterSegments (items : List Segment) : List Segment :=
  match List.insertionSort (fun a b => a.pos ≤ b.pos) items with
  | [] => []
  | a :: rest => ((groupGo a [a] rest).map processGroup).flatten

/-- First half of border synthesis (lines 144/147): prepend a border at 0
when the list is empty or its first line sits more than 5px from 0. -/
def addStartBorder (lines : List GridLine) (crossLen : ℚ) : List GridLine :=
  match lines with
  | [] => [⟨0, 0, 0, crossLen⟩]
  | a :: _ => if a.pos > 5 then ⟨0, 0, 0, crossLen⟩ :: lines else lines

/-- Second half of border synthesis (lines 145/148): append a border at
`limit` when the list is nonempty and its last line sits more than 5px from
`limit`. -/
def addEndBorder (lines : List GridLine) (limit crossLen : ℚ) : List GridLine :=
  match lines.getLast? with
  | some last =>
    if last.pos < limit - 5 then lines ++ [(⟨limit, 0, 0, crossLen⟩ : GridLine)] else lines
  | none => lines

/-- Border synthesis (lines 143–148): a border at 0 when there is no line
within 5px of it, and a border at `limit` (width/height) likewise. -/
def addBorders (lines : List GridLine) (limit crossLen : ℚ) : List GridLine :=
  addEndBorder (addStartBorder lines crossLen) limit crossLen

/-- `detectGrid` (`gridDetection.ts` lines 5–152): scan, cluster, project
each distinct clustered position to a full-span line, and add borders. -/
def detectGrid (img : DetectImage) (width height : ℕ) : Grid :=
  let minSegLen : ℚ := max 16 (((min width height : ℕ) : ℚ) / 100)
  let hSegments := clusterSegments (rawHSegments img width height minSegLen)
  let vSegments := clusterSegments (rawVSegments img width height minSegLen)
  let uniqueY := dedupSortedNums (hSegments.map (fun s => s.pos))
  let uniqueX := dedupSortedNums (vSegments.map (fun s => s.pos))
  let finalH := uniqueY.map (fun y => (⟨y, 1, 0, (width : ℚ)⟩ : GridLine))
  let finalV := uniqueX.map (fun x => (⟨x, 1, 0, (height : ℚ)⟩ : GridLine))
  { horizontal := addBorders finalH (height : ℚ) (width : ℚ)
    vertical := addBorders finalV (width : ℚ) (height : ℚ) }

/-! ### Concrete images used in the energy/planner theorems -/

/-- A uniform buffer: every byte is `c` — a uniform color `(c, c, c)`. -/
def uniformBytes (len c : ℕ) : ImageBytes := ⟨len, fun _ => c⟩

/-- A 10px-wide checkerboard of alternating 1px black/white columns: pixel
`p` is black when its column `p % 10` is even, which (since the row stride
10 is even) is exactly when `p` is even. -/
def checkerBytes : ImageBytes :=
  ⟨400, fun q => if (⌊q⌋.toNat / 4) % 2 = 0 then 0 else 255⟩

/-- An all-white (255 everywhere) buffer of 6400 bytes: an 8×200 image. -/
def whiteBytes : ImageBytes := ⟨6400, fun _ => 255⟩

/-- The grid used in the squish counterexample: an 8×200 canvas with
horizontal lines at 10 and 110 plus borders, and only border verticals;
its lattice cells are the rows `[0,10]`, `[10,110]`, `[110,200]`. -/
def squishDemoGrid : Grid :=
  ⟨[⟨0, 0, 0, 8⟩, ⟨10, 1, 0, 8⟩, ⟨110, 1, 0, 8⟩, ⟨200, 0, 0, 8⟩],
   [⟨0, 0, 0, 200⟩, ⟨8, 0, 0, 200⟩]⟩

/-- The synthetic 200×200 detection test image: all white, with a single
pure-black horizontal line 2px thick at y=100 spanning the full width (the
line occupies pixel rows 99 and 100, i.e. it is centered on the coordinate
y=100).  Byte `i` belongs to pixel row `i / 800` (RGBA rows of 200 pixels);
alpha bytes (`i % 4 = 3`) are 255. -/
def lineImg : DetectImage :=
  ⟨160000, fun idx =>
    if idx % 4 = 3 then 255
    else if 99 ≤ idx / 800 ∧ idx / 800 ≤ 100 then 0 else 255⟩

/-! ### Specification-side definitions

These follow the spec's words (not the source) and exist only to be compared
with the source-derived definitions above in refinement theorems. -/

/-- Well-formedness of a removal range list relative to a running cursor:
each range starts at or after the cursor, is properly ordered, and the
final cursor stays within the axis.  This is the hypothesis under which the
keep ranges of `invertRanges` complement the removal ranges exactly. -/
def rangesChainFromB (cursor totalSize : ℚ) : List Range → Bool
  | [] => decide (cursor ≤ totalSize)
  | r :: rs =>
    decide (cursor ≤ r.start) && decide (r.start ≤ r.end_) &&
    rangesChainFromB r.end_ totalSize rs

/-- Modelled from the spec: the overlap of removal range `r` with the
coordinates below `c`, i.e. the length of `[r.start, r.end] ∩ (-∞, c)`. -/
def specOverlapBelow (r : Range) (c : ℚ) : ℚ :=
  max 0 (min (c - r.start) (r.end_ - r.start))

/-- Modelled from the spec: the cumulative-shift map
`map(coord) = coord - Σ overlap(range, below coord)`. -/
def specMapCoord (ranges : List Range) (c : ℚ) : ℚ :=
  c - (ranges.map (fun r => specOverlapBelow r c)).sum

/-- Modelled from the spec: a line is dropped when its `pos` falls strictly
inside some removal range. -/
def specInsideSome (ranges : List Range) (pos : ℚ) : Bool :=
  ranges.any (fun r => decide (r.start < pos) && decide (pos < r.end_))

/-- Modelled from the spec: the grid remap described in §4.5 — drop lines
strictly inside a removed range, pass the rest through the cumulative-shift
maps (own axis for `pos`, perpendicular axis for `start`/`end`). -/
def specRemapGrid (xRs yRs : List Range) (g : Grid) : Grid :=
  { horizontal := g.horizontal.filterMap (fun l =>
      if specInsideSome yRs l.pos then none
      else some ⟨specMapCoord yRs l.pos, l.thickness,
                 specMapCoord xRs l.start, specMapCoord xRs l.end_⟩)
    vertical := g.vertical.filterMap (fun l =>
      if specInsideSome xRs l.pos then none
      else some ⟨specMapCoord xRs l.pos, l.thickness,
                 specMapCoord yRs l.start, specMapCoord yRs l.end_⟩) }

/-- Modelled from the spec: `s` = the largest crossing at most the cursor's
cross-axis coordinate, or the line's own `start` when there is none. -/
def specBracketS (line : GridLine) (crossings : List ℚ) (cross : ℚ) : ℚ :=
  match (crossings.filter (fun p => p ≤ cross)).max? with
  | some m => m
  | none => line.start

/-- Modelled from the spec: `e` = the smallest crossing strictly above the
cursor's cross-axis coordinate, or the line's own `end` when there is
none. -/
def specBracketE (line : GridLine) (crossings : List ℚ) (cross : ℚ) : ℚ :=
  match (crossings.filter (fun p => cross < p)).min? with
  | some m => m
  | none => line.end_

/-- Modelled from the spec: segment erase re-inserts a left remainder
`[start, s]` iff `s > start+1` and a right remainder `[e, end]` iff
`e < end-1`. -/
def specSegmentFragments (line : GridLine) (crossings : List ℚ) (cross : ℚ) :
    List GridLine :=
  let s := specBracketS line crossings cross
  let e := specBracketE line crossings cross
  (if s > line.start + 1 then [{ line with end_ := s }] else []) ++
  (if e < line.end_ - 1 then [{ line with start := e }] else [])

theorem mapCoord_nil (c : ℚ) : mapCoord [] c = c := by
  simp [mapCoord, shiftAmount]

theorem filterMap_some_lines (ls : List GridLine) :
    ls.filterMap (fun l => some ⟨l.pos, l.thickness, l.start, l.end_⟩) = ls := by
  induction ls with
  | nil => rfl
  | cons a t ih => simp [List.filterMap_cons, ih]

theorem remapGrid_nil (g : Grid) : remapGrid [] [] g = g := by
  have h : ∀ ls : List GridLine,
      ls.filterMap (remapLineH [] []) = ls := by
    intro ls
    have : remapLineH [] [] = fun l => some ⟨l.pos, l.thickness, l.start, l.end_⟩ := by
      funext l
      simp [remapLineH, lineRemoved, mapCoord_nil]
    rw [this, filterMap_some_lines]
  have v : ∀ ls : List GridLine,
      ls.filterMap (remapLineV [] []) = ls := by
    intro ls
    have : remapLineV [] [] = fun l => some ⟨l.pos, l.thickness, l.start, l.end_⟩ := by
      funext l
      simp [remapLineV, lineRemoved, mapCoord_nil]
    rw [this, filterMap_some_lines]
  cases g with
  | mk hs vs => simp [remapGrid, h, v]

theorem foldl_shift_eq (c : ℚ) (ranges : List Range) (init : ℚ) :
    ranges.foldl
      (fun shift r =>
        if c ≥ r.end_ then shift + (r.end_ - r.start)
        else if c > r.start then shift + (c - r.start)
        else shift) init
    = init + (ranges.map (fun r =>
        if c ≥ r.end_ then r.end_ - r.start
        else if c > r.start then c - r.start
        else 0)).sum := by
  induction ranges generalizing init with
  | nil => simp
  | cons r rs ih =>
    simp only [List.foldl_cons, List.map_cons, List.sum_cons, ih]
    split
    · ring
    · split
      · ring
      · ring

theorem shift_branch_eq_overlap (c : ℚ) (r : Range) (h : r.start ≤ r.end_) :
    (if c ≥ r.end_ then r.end_ - r.start
     else if c > r.start then c - r.start
     else 0) = specOverlapBelow r c := by
  unfold specOverlapBelow
  rcases le_or_lt r.end_ c with h1 | h1
  · rw [if_pos h1, min_eq_right (by linarith), max_eq_right (by linarith)]
  · rw [if_neg (not_le.mpr h1)]
    rcases lt_or_le r.start c with h2 | h2
    · rw [if_pos h2, min_eq_left (by linarith), max_eq_right (by linarith)]
    · rw [if_neg (not_lt.mpr h2), min_eq_left (by linarith), max_eq_left (by linarith)]

theorem mapCoord_eq_specMapCoord (ranges : List Range) (c : ℚ)
    (h : ∀ r ∈ ranges, r.start ≤ r.end_) :
    mapCoord ranges c = specMapCoord ranges c := by
  unfold mapCoord specMapCoord shiftAmount
  rw [foldl_shift_eq, zero_add,
    List.map_congr_left (fun r hr => shift_branch_eq_overlap c r (h r hr))]

theorem lineRemoved_eq_specInsideSome (ranges : List Range) (p : ℚ) :
    lineRemoved ranges p = specInsideSome ranges p := rfl

/-- C1: for every input image, selection list, crop mode and `smartMode`
flag, the crop's reported output dimensions are
`finalW = max(1, width - Σ merged removed X range widths)` and
`finalH = max(1, height - Σ merged removed Y range widths)`, where X ranges
are removed only in modes `vertical`/`both` and Y ranges only in
`horizontal`/`both`, and the whole interface output is identical for
`smartMode = true` and `smartMode = false`. -/
theorem crop_dimension_invariant (item : HistoryItem) (selections : List Rect)
    (grid : Option Grid) (mode : CropMode) (smartMode : Bool) :
    (processImageCrop item selections grid mode smartMode).width
        = max 1 (item.width - rangesTotal (globalXRanges selections mode)) ∧
    (processImageCrop item selections grid mode smartMode).height
        = max 1 (item.height - rangesTotal (globalYRanges selections mode)) ∧
    (mode = CropMode.horizontal → globalXRanges selections mode = []) ∧
    (mode = CropMode.vertical → globalYRanges selections mode = []) ∧
    processImageCrop item selections grid mode true
        = processImageCrop item selections grid mode false := by
  refine ⟨rfl, rfl, ?_, ?_, rfl⟩
  · intro h
    subst h
    simp [globalXRanges]
  · intro h
    subst h
    simp [globalYRanges]

/-- C10: cropping with an empty selection list is an identity at the
interface: the reported dimensions equal the item's dimensions (which are at
least 1) and the grid is returned with every line unchanged. -/
theorem crop_empty_selections_identity (item : HistoryItem) (g : Grid)
    (mode : CropMode) (smartMode : Bool)
    (hw : 1 ≤ item.width) (hh : 1 ≤ item.height) :
    processImageCrop item [] (some g) mode smartMode
      = ⟨item.width, item.height, some g⟩ := by
  have hx : globalXRanges [] mode = [] := by
    cases mode <;> simp [globalXRanges, mergeRanges, sortRangesByStart, List.insertionSort]
  have hy : globalYRanges [] mode = [] := by
    cases mode <;> simp [globalYRanges, mergeRanges, sortRangesByStart, List.insertionSort]
  unfold processImageCrop
  rw [hx, hy]
  simp [rangesTotal, remapGrid_nil, max_eq_right hw, max_eq_right hh]

/-- Witness for C10 at a concrete 100×50 item with a one-line grid. -/
theorem crop_empty_selections_identity_witness :
    processImageCrop ⟨100, 50⟩ [] (some ⟨[⟨20, 1, 0, 100⟩], []⟩) CropMode.both true
      = ⟨100, 50, some ⟨[⟨20, 1, 0, 100⟩], []⟩⟩ :=
  crop_empty_selections_identity ⟨100, 50⟩ ⟨[⟨20, 1, 0, 100⟩], []⟩ CropMode.both true
    (by norm_num) (by norm_num)

/-- C3: the crop's grid remap drops a line iff its `pos` lies strictly
inside some merged removed range on its own axis, and maps every surviving
line's `pos` (and, via the perpendicular map, `start`/`end`) by
`map(coord) = coord - Σ overlap(range, coordinates below coord)`; in
particular removing y∈[40,60] from a 100-tall image keeps a line at pos 20
at 20, maps pos 80 to 60, and drops pos 50. -/
theorem grid_remap_cumulative_shift :
    (∀ (ranges : List Range) (c : ℚ), (∀ r ∈ ranges, r.start ≤ r.end_) →
        mapCoord ranges c = specMapCoord ranges c) ∧
    (∀ (xRs yRs : List Range) (g : Grid),
        (∀ r ∈ xRs, r.start ≤ r.end_) → (∀ r ∈ yRs, r.start ≤ r.end_) →
        remapGrid xRs yRs g = specRemapGrid xRs yRs g) ∧
    processImageCrop ⟨100, 100⟩ [⟨0, 40, 100, 20⟩]
        (some ⟨[⟨20, 1, 0, 100⟩, ⟨50, 1, 0, 100⟩, ⟨80, 1, 0, 100⟩], []⟩)
        CropMode.horizontal true
      = ⟨100, 80, some ⟨[⟨20, 1, 0, 100⟩, ⟨60, 1, 0, 100⟩], []⟩⟩ := by
  refine ⟨mapCoord_eq_specMapCoord, ?_, by with_unfolding_all rfl⟩
  intro xRs yRs g hx hy
  unfold remapGrid specRemapGrid
  have hH : remapLineH xRs yRs = fun l =>
      if specInsideSome yRs l.pos then none
      else some ⟨specMapCoord yRs l.pos, l.thickness,
                 specMapCoord xRs l.start, specMapCoord xRs l.end_⟩ := by
    funext l
    unfold remapLineH
    rw [lineRemoved_eq_specInsideSome,
      mapCoord_eq_specMapCoord yRs l.pos hy,
      mapCoord_eq_specMapCoord xRs l.start hx,
      mapCoord_eq_specMapCoord xRs l.end_ hx]
  have hV : remapLineV xRs yRs = fun l =>
      if specInsideSome xRs l.pos then none
      else some ⟨specMapCoord xRs l.pos, l.thickness,
                 specMapCoord yRs l.start, specMapCoord yRs l.end_⟩ := by
    funext l
    unfold remapLineV
    rw [lineRemoved_eq_specInsideSome,
      mapCoord_eq_specMapCoord xRs l.pos hx,
      mapCoord_eq_specMapCoord yRs l.start hy,
      mapCoord_eq_specMapCoord yRs l.end_ hy]
  rw [hH, hV]

/-- Witness for C3 at the removal range `[40, 60]` and coordinate 80. -/
theorem grid_remap_cumulative_shift_witness :
    mapCoord [⟨40, 60⟩] 80 = specMapCoord [⟨40, 60⟩] 80 :=
  grid_remap_cumulative_shift.1 [⟨40, 60⟩] 80 (by
    intro r hr
    rcases List.mem_singleton.mp hr with rfl
    norm_num)

/-! ### C4: grid invariants -/

/-- Strict pairwise order of the positions of grid lines. -/
def PosLt (a b : GridLine) : Prop := a.pos < b.pos

theorem dedupSortedNums_pairwise (l : List ℚ) :
    List.Pairwise (fun a b : ℚ => a < b) (dedupSortedNums l) := by
  have hs : List.Sorted (fun a b : ℚ => a ≤ b) (dedupSortedNums l) :=
    List.sorted_insertionSort _ _
  have hn : (dedupSortedNums l).Nodup :=
    (List.perm_insertionSort _ l.dedup).symm.nodup (List.nodup_dedup l)
  exact (List.Pairwise.and hs hn).imp (fun h => lt_of_le_of_ne h.1 h.2)

theorem pairwise_le_getLast (l : List GridLine) (z : GridLine)
    (hp : List.Pairwise PosLt l) (hz : l.getLast? = some z) :
    ∀ a ∈ l, a.pos ≤ z.pos := by
  induction l with
  | nil => simp at hz
  | cons x rest ih =>
    cases rest with
    | nil =>
      simp only [List.getLast?_singleton, Option.some.injEq] at hz
      subst hz
      intro a ha
      simp at ha
      subst ha
      exact le_refl _
    | cons y rest' =>
      rw [List.getLast?_cons_cons] at hz
      intro a ha
      rcases List.mem_cons.mp ha with rfl | ha'
      · have hzmem : z ∈ y :: rest' := by
          have := List.getLast?_eq_getLast (y :: rest') (by simp)
          rw [this] at hz
          injection hz with hzz
          subst hzz
          exact List.getLast_mem _
        exact le_of_lt (List.rel_of_pairwise_cons hp hzmem)
      · exact ih hp.of_cons hz a ha'

theorem addStartBorder_pairwise (ls : List GridLine) (crossLen : ℚ)
    (hp : List.Pairwise PosLt ls) :
    List.Pairwise PosLt (addStartBorder ls crossLen) := by
  unfold addStartBorder
  cases ls with
  | nil => exact List.pairwise_singleton _ _
  | cons a rest =>
    dsimp only
    by_cases hpos : a.pos > 5
    · rw [if_pos hpos]
      refine List.Pairwise.cons ?_ hp
      intro b hb
      rcases List.mem_cons.mp hb with rfl | hb'
      · show (0 : ℚ) < b.pos
        linarith
      · have : a.pos < b.pos := List.rel_of_pairwise_cons hp hb'
        show (0 : ℚ) < b.pos
        linarith
    · rw [if_neg hpos]
      exact hp

theorem addEndBorder_pairwise (ls : List GridLine) (limit crossLen : ℚ)
    (hp : List.Pairwise PosLt ls) :
    List.Pairwise PosLt (addEndBorder ls limit crossLen) := by
  unfold addEndBorder
  cases hL : ls.getLast? with
  | none => exact hp
  | some last =>
    dsimp only
    by_cases hlt : last.pos < limit - 5
    · rw [if_pos hlt, List.pairwise_append]
      refine ⟨hp, List.pairwise_singleton _ _, ?_⟩
      intro a ha b hb
      rcases List.mem_singleton.mp hb with rfl
      have : a.pos ≤ last.pos := pairwise_le_getLast ls last hp hL a ha
      show a.pos < limit
      linarith
    · rw [if_neg hlt]
      exact hp

theorem addBorders_pairwise (ls : List GridLine) (limit crossLen : ℚ)
    (hp : List.Pairwise PosLt ls) :
    List.Pairwise PosLt (addBorders ls limit crossLen) :=
  addEndBorder_pairwise _ _ _ (addStartBorder_pairwise _ _ hp)

theorem addBorders_mem_span (ls : List GridLine) (limit crossLen : ℚ)
    (hls : ∀ l ∈ ls, l.start = 0 ∧ l.end_ = crossLen) :
    ∀ l ∈ addBorders ls limit crossLen, l.start = 0 ∧ l.end_ = crossLen := by
  have h1 : ∀ l ∈ addStartBorder ls crossLen, l.start = 0 ∧ l.end_ = crossLen := by
    unfold addStartBorder
    cases ls with
    | nil =>
      intro l hl
      rcases List.mem_singleton.mp hl with rfl
      exact ⟨rfl, rfl⟩
    | cons a rest =>
      dsimp only
      split
      · intro l hl
        rcases List.mem_cons.mp hl with rfl | h
        · exact ⟨rfl, rfl⟩
        · exact hls l h
      · exact hls
  unfold addBorders addEndBorder
  cases (addStartBorder ls crossLen).getLast? with
  | none => exact h1
  | some last =>
    dsimp only
    split
    · intro l hl
      rcases List.mem_append.mp hl with h | h
      · exact h1 l h
      · rcases List.mem_singleton.mp h with rfl
        exact ⟨rfl, rfl⟩
    · exact h1

/-- C4, amended: every `Grid` produced by the detector satisfies the
data-model invariants in the form the code maintains: within each axis the
lines are strictly ascending by `pos`, and every line has `start < end`
(for positive canvas dimensions).  The erase and crop operations do not
preserve these invariants (see the counterexample). -/
theorem detector_grid_invariants (img : DetectImage) (width height : ℕ)
    (hw : 0 < width) (hh : 0 < height) :
    List.Pairwise PosLt (detectGrid img width height).horizontal ∧
    List.Pairwise PosLt (detectGrid img width height).vertical ∧
    (∀ l ∈ (detectGrid img width height).horizontal, l.start < l.end_) ∧
    (∀ l ∈ (detectGrid img width height).vertical, l.start < l.end_) := by
  unfold detectGrid
  simp only
  refine ⟨?_, ?_, ?_, ?_⟩
  · apply addBorders_pairwise
    rw [List.pairwise_map]
    exact dedupSortedNums_pairwise _
  · apply addBorders_pairwise
    rw [List.pairwise_map]
    exact dedupSortedNums_pairwise _
  · intro l hl
    have := addBorders_mem_span
      ((dedupSortedNums (List.map (fun s => s.pos)
        (clusterSegments (rawHSegments img width height
          (max 16 (((min width height : ℕ) : ℚ) / 100)))))).map
        (fun y => (⟨y, 1, 0, (width : ℚ)⟩ : GridLine)))
      (height : ℚ) (width : ℚ) (by
        intro l' hl'
        rcases List.mem_map.mp hl' with ⟨y, _, rfl⟩
        exact ⟨rfl, rfl⟩) l hl
    rw [this.1, this.2]
    exact_mod_cast hw
  · intro l hl
    have := addBorders_mem_span
      ((dedupSortedNums (List.map (fun s => s.pos)
        (clusterSegments (rawVSegments img width height
          (max 16 (((min width height : ℕ) : ℚ) / 100)))))).map
        (fun x => (⟨x, 1, 0, (height : ℚ)⟩ : GridLine)))
      (width : ℚ) (height : ℚ) (by
        intro l' hl'
        rcases List.mem_map.mp hl' with ⟨y, _, rfl⟩
        exact ⟨rfl, rfl⟩) l hl
    rw [this.1, this.2]
    exact_mod_cast hh

/-- Witness for the amended C4 at a concrete 3×3 image. -/
theorem detector_grid_invariants_witness :
    List.Pairwise PosLt (detectGrid ⟨36, fun _ => 255⟩ 3 3).horizontal ∧
    List.Pairwise PosLt (detectGrid ⟨36, fun _ => 255⟩ 3 3).vertical ∧
    (∀ l ∈ (detectGrid ⟨36, fun _ => 255⟩ 3 3).horizontal, l.start < l.end_) ∧
    (∀ l ∈ (detectGrid ⟨36, fun _ => 255⟩ 3 3).vertical, l.start < l.end_) :=
  detector_grid_invariants ⟨36, fun _ => 255⟩ 3 3 (by norm_num) (by norm_num)

/-- Counterexample to C4 as stated: cropping away exactly the span
`x ∈ [40, 60]` of a horizontal line produces a remapped grid (a non-`null`
result of a core operation) whose line has `start = end = 40`, violating the
`start < end` invariant. -/
theorem grid_invariants_crop_cex :
    (processImageCrop ⟨100, 100⟩ [⟨40, 0, 20, 100⟩]
        (some ⟨[⟨20, 1, 40, 60⟩], []⟩) CropMode.vertical true).grid
      = some ⟨[⟨20, 1, 40, 40⟩], []⟩ ∧
    ¬ (∀ l ∈ [(⟨20, 1, 40, 40⟩ : GridLine)], l.start < l.end_) := by
  constructor
  · with_unfolding_all rfl
  · intro h
    have := h ⟨20, 1, 40, 40⟩ (List.mem_singleton.mpr rfl)
    exact absurd this (by norm_num)

/-! ### C5: eraser frame effect -/

theorem processLines_flatMap (t : ℚ) (coords : Point) (mode : Bool)
    (perp : List GridLine) (axis : Axis) (lines : List GridLine) :
    processLines t coords mode perp axis lines =
      (lines.flatMap (fun l =>
        if lineHit t (match axis with | Axis.h => coords.y | Axis.v => coords.x)
            (match axis with | Axis.h => coords.x | Axis.v => coords.y) l then
          (if mode then []
           else segmentFragments l (sortedCrossings perp l.pos)
                  (match axis with | Axis.h => coords.x | Axis.v => coords.y))
        else [l]),
       lines.any (fun l =>
        lineHit t (match axis with | Axis.h => coords.y | Axis.v => coords.x)
          (match axis with | Axis.h => coords.x | Axis.v => coords.y) l)) := by
  cases axis with
  | h =>
    induction lines with
    | nil => rfl
    | cons a rest ih =>
      simp only [processLines, ih, List.flatMap_cons, List.any_cons]
      by_cases hhit : lineHit t coords.y coords.x a
      · rw [hhit]
        cases mode <;> simp
      · simp [hhit]
  | v =>
    induction lines with
    | nil => rfl
    | cons a rest ih =>
      simp only [processLines, ih, List.flatMap_cons, List.any_cons]
      by_cases hhit : lineHit t coords.x coords.y a
      · rw [hhit]
        cases mode <;> simp
      · simp [hhit]

/-- Counterexample to C5 as stated: with two horizontal lines at pos 10 and
pos 15 and the pointer at (50, 12) (distances 2 and 3, both under the 20px
threshold), a single whole-line erase removes BOTH lines — the farther line
at pos 15 is not left as it was. -/
theorem erase_single_touch_cex :
    performErase (some ⟨[⟨10, 1, 0, 100⟩, ⟨15, 1, 0, 100⟩], []⟩) ⟨50, 12⟩ true 1
      = some ⟨[], []⟩ ∧
    ¬ ((⟨15, 1, 0, 100⟩ : GridLine) ∈ ([] : List GridLine)) := by
  constructor
  · with_unfolding_all rfl
  · simp

/-- C5, amended: a single erase call touches EVERY eligible line on both
axes, not at most one — a line is eligible exactly when its span contains
the pointer's cross-axis coordinate and its `pos` is within `20/scale` of
the pointer's main-axis coordinate; eligible lines are removed (line mode)
or split into their bracket fragments (segment mode), every other line is
left exactly as it was (in order), and the call returns `none` exactly when
no line is eligible. -/
theorem erase_touches_every_eligible_line (g : Grid) (coords : Point)
    (isLineMode : Bool) (scale : ℚ) :
    performErase (some g) coords isLineMode scale =
      (if g.horizontal.any (lineHit (20 / scale) coords.y coords.x) ||
          g.vertical.any (lineHit (20 / scale) coords.x coords.y) then
        some ⟨g.horizontal.flatMap (fun l =>
                if lineHit (20 / scale) coords.y coords.x l then
                  (if isLineMode then []
                   else segmentFragments l (sortedCrossings g.vertical l.pos) coords.x)
                else [l]),
              g.vertical.flatMap (fun l =>
                if lineHit (20 / scale) coords.x coords.y l then
                  (if isLineMode then []
                   else segmentFragments l (sortedCrossings g.horizontal l.pos) coords.y)
                else [l])⟩
      else none) := by
  unfold performErase
  dsimp only
  rw [processLines_flatMap, processLines_flatMap]

/-! ### C6: segment erase bracket -/

theorem bracketLoop_all_le (cross e : ℚ) (ps : List ℚ)
    (h : ∀ p ∈ ps, p ≤ cross) :
    ∀ s, bracketLoop cross s e ps = (ps.foldl max s, e) := by
  induction ps with
  | nil => intro s; rfl
  | cons p rest ih =>
    intro s
    have hp : p ≤ cross := h p (List.mem_cons_self p rest)
    simp only [bracketLoop, if_pos hp, List.foldl_cons]
    exact ih (fun q hq => h q (List.mem_cons_of_mem p hq)) (max s p)

theorem bracketLoop_split (cross e : ℚ) (A : List ℚ) (b : ℚ) (B : List ℚ)
    (hA : ∀ p ∈ A, p ≤ cross) (hb : ¬ b ≤ cross) :
    ∀ s, bracketLoop cross s e (A ++ b :: B) = (A.foldl max s, min e b) := by
  induction A with
  | nil =>
    intro s
    simp only [List.nil_append, bracketLoop, if_neg hb, List.foldl_nil]
  | cons p rest ih =>
    intro s
    have hp : p ≤ cross := hA p (List.mem_cons_self p rest)
    simp only [List.cons_append, bracketLoop, if_pos hp, List.foldl_cons]
    exact ih (fun q hq => hA q (List.mem_cons_of_mem p hq)) (max s p)

theorem foldl_max_eq_max? (A : List ℚ) :
    ∀ s, A.foldl max s = match A.max? with | none => s | some m => max s m := by
  induction A with
  | nil => intro s; rfl
  | cons a rest ih =>
    intro s
    simp only [List.foldl_cons]
    rw [ih (max s a), List.max?_cons]
    cases rest.max? with
    | none => rfl
    | some m => simp [max_assoc]

theorem foldl_min_of_le (b : ℚ) (B : List ℚ) (h : ∀ p ∈ B, b ≤ p) :
    B.foldl min b = b := by
  induction B with
  | nil => rfl
  | cons p rest ih =>
    simp only [List.foldl_cons,
      min_eq_left (h p (List.mem_cons_self p rest))]
    exact ih (fun q hq => h q (List.mem_cons_of_mem p hq))

theorem sorted_filter_decomp (c : ℚ) (ps : List ℚ)
    (hs : List.Sorted (fun a b : ℚ => a ≤ b) ps) :
    ps = ps.filter (fun p => decide (p ≤ c)) ++ ps.filter (fun p => decide (c < p)) := by
  induction ps with
  | nil => rfl
  | cons p rest ih =>
    rcases List.sorted_cons.mp hs with ⟨hrel, hrest⟩
    by_cases hp : p ≤ c
    · simp only [List.filter_cons, decide_eq_true hp, decide_eq_true_eq]
      simp only [if_neg (not_lt.mpr hp)]
      simpa using ih hrest
    · have hcp : c < p := not_le.mp hp
      have hall : ∀ q ∈ p :: rest, c < q := by
        intro q hq
        rcases List.mem_cons.mp hq with rfl | hq'
        · exact hcp
        · exact lt_of_lt_of_le hcp (hrel q hq')
      have h1 : (p :: rest).filter (fun p => decide (p ≤ c)) = [] := by
        rw [List.filter_eq_nil_iff]
        intro q hq
        simpa using not_le.mpr (hall q hq)
      have h2 : (p :: rest).filter (fun p => decide (c < p)) = p :: rest := by
        rw [List.filter_eq_self]
        intro q hq
        simpa using hall q hq
      rw [h1, h2, List.nil_append]

theorem left_fragment_clamp (line : GridLine) (v : ℚ) :
    (if max line.start v > line.start + 1 then [{ line with end_ := max line.start v }] else [])
      = (if v > line.start + 1 then [{ line with end_ := v }] else []) := by
  by_cases h : line.start < v
  · rw [max_eq_right (le_of_lt h)]
  · have h' : v ≤ line.start := not_lt.mp h
    rw [max_eq_left h', if_neg (by linarith), if_neg (by linarith)]

theorem right_fragment_clamp (line : GridLine) (v : ℚ) :
    (if min line.end_ v < line.end_ - 1 then [{ line with start := min line.end_ v }] else [])
      = (if v < line.end_ - 1 then [{ line with start := v }] else []) := by
  by_cases h : v < line.end_
  · rw [min_eq_right (le_of_lt h)]
  · have h' : line.end_ ≤ v := not_lt.mp h
    rw [min_eq_left h', if_neg (by linarith), if_neg (by linarith)]

theorem segmentFragments_eq_spec (line : GridLine) (crossings : List ℚ) (cross : ℚ)
    (hs : List.Sorted (fun a b : ℚ => a ≤ b) crossings) :
    segmentFragments line crossings cross = specSegmentFragments line crossings cross := by
  have hdec := sorted_filter_decomp cross crossings hs
  have hAmem : ∀ p ∈ crossings.filter (fun p => decide (p ≤ cross)), p ≤ cross := by
    intro p hp
    simpa using (List.mem_filter.mp hp).2
  have hsplit : bracketLoop cross line.start line.end_ crossings =
      (((crossings.filter (fun p => decide (p ≤ cross))).foldl max line.start),
       (match (crossings.filter (fun p => decide (cross < p))) with
        | [] => line.end_
        | b :: _ => min line.end_ b)) := by
    cases hB : crossings.filter (fun p => decide (cross < p)) with
    | nil =>
      conv_lhs => rw [hdec, hB]
      rw [List.append_nil]
      exact bracketLoop_all_le cross line.end_ _ hAmem line.start
    | cons b B' =>
      have hbmem : b ∈ crossings.filter (fun p => decide (cross < p)) := by
        rw [hB]; exact List.mem_cons_self b B'
      have hb : ¬ b ≤ cross := not_le.mpr (by simpa using (List.mem_filter.mp hbmem).2)
      conv_lhs => rw [hdec, hB]
      exact bracketLoop_split cross line.end_ _ b B' hAmem hb line.start
  unfold segmentFragments specSegmentFragments specBracketS specBracketE
  rw [hsplit]
  dsimp only
  rw [foldl_max_eq_max?]
  congr 1
  · cases (crossings.filter (fun p => decide (p ≤ cross))).max? with
    | none => rfl
    | some m => exact left_fragment_clamp line m
  · cases hB : crossings.filter (fun p => decide (cross < p)) with
    | nil => rfl
    | cons b B' =>
      have hsB : List.Sorted (fun a b : ℚ => a ≤ b) (b :: B') := by
        rw [← hB]
        exact hs.filter _
      have hmin : (b :: B').min? = some b := by
        cases hm : B'.min? with
        | none => simp [List.min?_cons, hm]
        | some m =>
          have hmem : m ∈ B' := List.min?_mem (fun a b => min_choice a b) hm
          simp [List.min?_cons, hm,
            min_eq_left ((List.sorted_cons.mp hsB).1 m hmem)]
      rw [hmin]
      exact right_fragment_clamp line b

/-- C6: in segment mode the erased line is removed and replaced by exactly
the bracket remainders the spec describes: with crossings the ascending
positions of covering perpendicular lines, `s` the largest crossing at most
the cursor (else the line's start), `e` the smallest crossing above the
cursor (else the line's end), a left remainder `[start, s]` is kept iff
`s > start+1` and a right remainder `[e, end]` iff `e < end-1`; a line with
no crossings is removed entirely; and the concrete 0–150 line crossed at 50
and 100, erased near 75, leaves exactly the fragments `[0,50]` and
`[100,150]`. -/
theorem segment_erase_bracket :
    (∀ (line : GridLine) (crossings : List ℚ) (cross : ℚ),
      List.Sorted (fun a b : ℚ => a ≤ b) crossings →
      segmentFragments line crossings cross = specSegmentFragments line crossings cross) ∧
    (∀ (line : GridLine) (cross : ℚ), segmentFragments line [] cross = []) ∧
    performErase (some ⟨[⟨10, 1, 0, 150⟩], [⟨50, 1, 0, 20⟩, ⟨100, 1, 0, 20⟩]⟩)
        ⟨75, 10⟩ false 1
      = some ⟨[⟨10, 1, 0, 50⟩, ⟨10, 1, 100, 150⟩],
              [⟨50, 1, 0, 20⟩, ⟨100, 1, 0, 20⟩]⟩ := by
  refine ⟨segmentFragments_eq_spec, ?_, by with_unfolding_all rfl⟩
  intro line cross
  unfold segmentFragments bracketLoop
  dsimp only
  have h1 : ¬ line.start > line.start + 1 := by linarith
  have h2 : ¬ line.end_ < line.end_ - 1 := by linarith
  rw [if_neg h1, if_neg h2]
  rfl

/-- Witness for C6 at the concrete line and crossings of the spec's
example. -/
theorem segment_erase_bracket_witness :
    segmentFragments ⟨10, 1, 0, 150⟩ [50, 100] 75
      = specSegmentFragments ⟨10, 1, 0, 150⟩ [50, 100] 75 :=
  segment_erase_bracket.1 ⟨10, 1, 0, 150⟩ [50, 100] 75
    (by simp [List.sorted_cons]; norm_num)

/-! ### C7: energy scoring -/

theorem flatten_pairs_length (ys xs : List ℚ) :
    ((ys.map (fun y => xs.map (fun x => (y, x)))).flatten).length
      = ys.length * xs.length := by
  induction ys with
  | nil => simp
  | cons y rest ih =>
    simp only [List.map_cons, List.flatten_cons, List.length_append, List.length_map,
      List.length_cons, ih]
    ring

theorem energyStep_bright (c len : ℕ) (width : ℚ) (hc : (230 : ℚ) ≤ c)
    (acc : ℚ × ℕ) (yx : ℚ × ℚ) :
    energyStep (uniformBytes len c) width acc yx = (acc.1, acc.2 + 1) := by
  unfold energyStep uniformBytes
  dsimp only
  have hb : ((c : ℚ) + c + c) / 3 = c := by ring
  rw [hb, if_neg (not_lt.mpr hc)]
  simp

theorem energyStep_dark (c len : ℕ) (width : ℚ) (hc : (c : ℚ) < 230)
    (acc : ℚ × ℕ) (yx : ℚ × ℚ) :
    energyStep (uniformBytes len c) width acc yx = (acc.1 + 20, acc.2 + 1) := by
  unfold energyStep uniformBytes
  dsimp only
  have hb : ((c : ℚ) + c + c) / 3 = c := by ring
  rw [hb, if_pos hc]
  simp

theorem foldl_energy_bright (c len : ℕ) (width : ℚ) (hc : (230 : ℚ) ≤ c)
    (ps : List (ℚ × ℚ)) : ∀ acc : ℚ × ℕ,
    ps.foldl (energyStep (uniformBytes len c) width) acc = (acc.1, acc.2 + ps.length) := by
  induction ps with
  | nil => intro acc; simp
  | cons p rest ih =>
    intro acc
    rw [List.foldl_cons, energyStep_bright c len width hc, ih]
    simp only [List.length_cons]
    congr 1
    omega

theorem foldl_energy_dark (c len : ℕ) (width : ℚ) (hc : (c : ℚ) < 230)
    (ps : List (ℚ × ℚ)) : ∀ acc : ℚ × ℕ,
    ps.foldl (energyStep (uniformBytes len c) width) acc
      = (acc.1 + 20 * ps.length, acc.2 + ps.length) := by
  induction ps with
  | nil => intro acc; simp
  | cons p rest ih =>
    intro acc
    rw [List.foldl_cons, energyStep_dark c len width hc, ih]
    simp only [List.length_cons]
    congr 1
    · push_cast
      ring
    · omega

/-- Counterexample to C7 as stated: a uniform-color region is NOT always
safe — a uniform pure-black 4×4 region scores average energy 20 (every
sampled pair gets the dark-pixel base penalty of 20), which is not below
the 5.0 threshold and not approximately 0, so the region is classified
unsafe. -/
theorem energy_uniform_color_cex :
    getRegionEnergy (uniformBytes 400 0) 10 0 0 4 4 = 20 ∧
    ¬ ((20 : ℚ) < 5) ∧ (20 : ℚ) ≠ 0 := by
  refine ⟨by with_unfolding_all rfl, by norm_num, by norm_num⟩

/-- C7, amended: the safe classification of a uniform region depends on its
brightness — a uniform color with channel value at least 230 (light) scores
energy 0, below the 5.0 threshold; a uniform color darker than 230 scores
exactly 20 per sampled pair on average (unsafe, not below 5.0) whenever at
least one pair is sampled; and the alternating black/white 1px-column
checkerboard region scores 785, far above 5.0, so its removal quota is
routed to squish rather than physical cut. -/
theorem energy_scoring_amended :
    (∀ (c len : ℕ) (width sX sY w h : ℚ), (230 : ℚ) ≤ c →
      getRegionEnergy (uniformBytes len c) width sX sY w h = 0 ∧ ((0 : ℚ) < 5)) ∧
    (∀ (c len : ℕ) (width sX sY w h : ℚ), (c : ℚ) < 230 →
      ((stride2Lt (max 0 sY) (min (sY + h) ((len : ℚ) / 4 / width))).length ≠ 0) →
      ((stride2Lt (max 0 sX) (min (sX + w) width - 1)).length ≠ 0) →
      getRegionEnergy (uniformBytes len c) width sX sY w h = 20 ∧ ¬ ((20 : ℚ) < 5)) ∧
    (getRegionEnergy checkerBytes 10 0 0 8 4 = 785 ∧ ¬ ((785 : ℚ) < 5)) := by
  refine ⟨?_, ?_, by with_unfolding_all rfl, by norm_num⟩
  · intro c len width sX sY w h hc
    refine ⟨?_, by norm_num⟩
    unfold getRegionEnergy
    dsimp only
    rw [foldl_energy_bright c len width hc]
    dsimp only
    split
    · exact zero_div _
    · rfl
  · intro c len width sX sY w h hc hys hxs
    refine ⟨?_, by norm_num⟩
    unfold getRegionEnergy
    dsimp only
    rw [foldl_energy_dark c len width hc]
    simp only [uniformBytes]
    rw [flatten_pairs_length]
    have hn : (stride2Lt (max 0 sY) (min (sY + h) ((len : ℚ) / 4 / width))).length *
        (stride2Lt (max 0 sX) (min (sX + w) width - 1)).length ≠ 0 :=
      Nat.mul_ne_zero hys hxs
    rw [if_pos (by omega :
      0 + (stride2Lt (max 0 sY) (min (sY + h) ((len : ℚ) / 4 / width))).length *
        (stride2Lt (max 0 sX) (min (sX + w) width - 1)).length > 0)]
    rw [Nat.zero_add, zero_add, mul_div_assoc, div_self (by exact_mod_cast hn), mul_one]

/-- Witness for the amended C7: uniform white region (part 1) and a uniform
mid-gray region with its sampled pair lists nonempty (part 2). -/
theorem energy_scoring_amended_witness :
    (getRegionEnergy (uniformBytes 400 255) 10 0 0 4 4 = 0 ∧ ((0 : ℚ) < 5)) ∧
    (getRegionEnergy (uniformBytes 400 128) 10 0 0 4 4 = 20 ∧ ¬ ((20 : ℚ) < 5)) :=
  ⟨energy_scoring_amended.1 255 400 10 0 0 4 4 (by norm_num),
   energy_scoring_amended.2.1 128 400 10 0 0 4 4 (by norm_num)
     (by with_unfolding_all decide) (by with_unfolding_all decide)⟩

/-! ### C9: lattice merge -/

/-- C9: on a 150-wide canvas with full-span verticals at 0, 50, 100, 150 and
border horizontals, erasing the vertical at x=100 in whole-line mode and
resolving cells yields exactly 2 cells, the second spanning x from 50 to
150 — the absent wall merges the two adjacent atomic blocks. -/
theorem lattice_merge_after_erase :
    performErase (some ⟨[⟨0, 1, 0, 150⟩, ⟨100, 1, 0, 150⟩],
        [⟨0, 1, 0, 100⟩, ⟨50, 1, 0, 100⟩, ⟨100, 1, 0, 100⟩, ⟨150, 1, 0, 100⟩]⟩)
        ⟨100, 50⟩ true 1
      = some ⟨[⟨0, 1, 0, 150⟩, ⟨100, 1, 0, 150⟩],
              [⟨0, 1, 0, 100⟩, ⟨50, 1, 0, 100⟩, ⟨150, 1, 0, 100⟩]⟩ ∧
    getActualCells ⟨[⟨0, 1, 0, 150⟩, ⟨100, 1, 0, 150⟩],
        [⟨0, 1, 0, 100⟩, ⟨50, 1, 0, 100⟩, ⟨150, 1, 0, 100⟩]⟩ 150 100
      = [⟨0, 0, 50, 100⟩, ⟨50, 0, 100, 100⟩] ∧
    ([(⟨0, 0, 50, 100⟩ : Rect), ⟨50, 0, 100, 100⟩]).length = 2 :=
  ⟨by with_unfolding_all rfl, by with_unfolding_all rfl, rfl⟩

/-! ### C2: strip planner total removal -/

theorem rangesLenSum_append (a b : List Range) :
    rangesLenSum (a ++ b) = rangesLenSum a + rangesLenSum b := by
  simp [rangesLenSum]

theorem invertGo_sum (T : ℚ) :
    ∀ (rs : List Range) (c : ℚ), rangesChainFromB c T rs = true →
    rangesLenSum (invertGo T c rs) = T - c - rangesLenSum rs := by
  intro rs
  induction rs with
  | nil =>
    intro c h
    have hcT : c ≤ T := by simpa [rangesChainFromB] using h
    unfold invertGo
    by_cases hlt : c < T
    · rw [if_pos hlt]
      simp [rangesLenSum]
    · rw [if_neg hlt]
      have : c = T := le_antisymm hcT (not_lt.mp hlt)
      simp [rangesLenSum, this]
  | cons r rs' ih =>
    intro c h
    have h' : c ≤ r.start ∧ r.start ≤ r.end_ ∧ rangesChainFromB r.end_ T rs' = true := by
      simpa [rangesChainFromB, Bool.and_eq_true, decide_eq_true_eq, and_assoc] using h
    unfold invertGo
    rw [rangesLenSum_append]
    have hmax : max c r.end_ = r.end_ :=
      max_eq_right (le_trans h'.1 h'.2.1)
    rw [hmax, ih r.end_ h'.2.2]
    have hhead : rangesLenSum (if r.start > c then [(⟨c, r.start⟩ : Range)] else [])
        = r.start - c := by
      by_cases hgt : r.start > c
      · rw [if_pos hgt]
        simp [rangesLenSum]
      · rw [if_neg hgt]
        have : r.start = c := le_antisymm (not_lt.mp hgt) h'.1
        simp [rangesLenSum, this]
    rw [hhead]
    simp only [rangesLenSum, List.map_cons, List.sum_cons]
    ring

/-- C2, amended: the planner's fallback path (smart mode off, or no image
data) emits keep operations whose total destination length is exactly the
axis length minus the total removal length, whenever the sorted removal
ranges are well-formed (ascending, disjoint, inside `[0, axisLen]`).  The
smart path does not guarantee this (see the counterexample). -/
theorem strip_ops_fallback_total (T : ℚ) (ranges : List Range)
    (cells : List Rect) (ss se : ℚ) (imgData : Option ImageBytes)
    (imgW imgH : ℚ) (isVert : Bool)
    (h : rangesChainFromB 0 T (sortRangesByStart ranges) = true) :
    opsDestTotal (getStripOperations T ranges cells ss se false imgData imgW imgH isVert)
      = T - rangesLenSum ranges := by
  have hfall : getStripOperations T ranges cells ss se false imgData imgW imgH isVert
      = (invertRanges T ranges).map
          (fun k => ⟨k.start, k.end_ - k.start, k.end_ - k.start⟩) := by
    unfold getStripOperations
    rfl
  rw [hfall]
  have hdest : opsDestTotal ((invertRanges T ranges).map
      (fun k => (⟨k.start, k.end_ - k.start, k.end_ - k.start⟩ : DrawOperation)))
      = rangesLenSum (invertRanges T ranges) := by
    simp only [opsDestTotal, rangesLenSum, List.map_map]
    rfl
  rw [hdest]
  unfold invertRanges
  rw [invertGo_sum T _ 0 h]
  have hperm : rangesLenSum (sortRangesByStart ranges) = rangesLenSum ranges := by
    unfold rangesLenSum
    exact ((List.perm_insertionSort _ ranges).map _).sum_eq
  rw [hperm]
  ring

/-- Witness for the amended C2 at a concrete axis of length 100 with one
removal range `[10, 30]`. -/
theorem strip_ops_fallback_total_witness :
    opsDestTotal (getStripOperations 100 [⟨10, 30⟩] [] 0 50 false none 0 0 true)
      = 100 - rangesLenSum [⟨10, 30⟩] :=
  strip_ops_fallback_total 100 [⟨10, 30⟩] [] 0 50 none 0 0 true
    (by with_unfolding_all decide)

/-- Counterexample to C2 as stated: on an 8×200 all-white image whose grid
cells are the rows `[0,10]`, `[10,110]`, `[110,200]`, the merged removal
ranges `[5,101]` and `[102,112]` both conflict with the middle cell; the
96px range does not fit a safe-zone window (infinite energy → squish debt
96), while the 10px range finds a safe zone (white → energy 0 → physical
cut `[12,22]` inside the same cell).  The squish scale `4/100` is then
applied only to the non-cut remainder of the cell, so the strip's total
destination length is 518/5 = 103.6, not 200 − 106 = 94: the pixels removed
do NOT equal the requested total. -/
theorem strip_total_removal_cex :
    mergeRanges [⟨5, 101⟩, ⟨102, 112⟩] = [⟨5, 101⟩, ⟨102, 112⟩] ∧
    getActualCells squishDemoGrid 8 200
      = [⟨0, 0, 8, 10⟩, ⟨0, 10, 8, 100⟩, ⟨0, 110, 8, 90⟩] ∧
    opsDestTotal (getStripOperations 200 [⟨5, 101⟩, ⟨102, 112⟩]
        (getActualCells squishDemoGrid 8 200) 0 8 true (some whiteBytes) 8 200 true)
      = 518/5 ∧
    (518 : ℚ)/5 ≠ 200 - rangesLenSum [⟨5, 101⟩, ⟨102, 112⟩] := by
  refine ⟨by with_unfolding_all rfl, by with_unfolding_all rfl,
    by with_unfolding_all rfl, ?_⟩
  have : rangesLenSum [(⟨5, 101⟩ : Range), ⟨102, 112⟩] = 106 := by
    simp [rangesLenSum]
    norm_num
  rw [this]
  norm_num

/-! ### C8: detection determinism -/

theorem lineImg_lum (x y : ℕ) (hx : x < 200) :
    getLum lineImg ((y * 200 + x) * 4) = if 99 ≤ y ∧ y ≤ 100 then 0 else 765 := by
  unfold getLum lineImg
  dsimp only
  have e0 : ((y * 200 + x) * 4) % 4 = 0 := by omega
  have e1 : ((y * 200 + x) * 4 + 1) % 4 = 1 := by omega
  have e2 : ((y * 200 + x) * 4 + 2) % 4 = 2 := by omega
  have d0 : ((y * 200 + x) * 4) / 800 = y := by omega
  have d1 : ((y * 200 + x) * 4 + 1) / 800 = y := by omega
  have d2 : ((y * 200 + x) * 4 + 2) / 800 = y := by omega
  rw [e0, e1, e2, d0, d1, d2]
  by_cases hb : 99 ≤ y ∧ y ≤ 100
  · simp [hb]
  · simp [hb]

theorem scanGo_all_false (isEdge : ℕ → Bool) (m : ℚ) (L : ℕ) :
    ∀ (rem x : ℕ), (∀ i, i < x + rem → isEdge i = false) →
    scanGo isEdge m L x rem none = [] := by
  intro rem
  induction rem with
  | zero => intro x _; rfl
  | succ n ih =>
    intro x h
    have hx : isEdge x = false := h x (by omega)
    simp only [scanGo, hx, Bool.false_eq_true, if_false]
    exact ih (x + 1) (fun i hi => h i (by omega))

theorem scanGo_all_true (isEdge : ℕ → Bool) (m : ℚ) (L : ℕ) :
    ∀ (rem x s : ℕ), (∀ i, i < x + rem → isEdge i = true) →
    scanGo isEdge m L x rem (some s) =
      if ((L - s : ℕ) : ℚ) > m then [(s, L)] else [] := by
  intro rem
  induction rem with
  | zero => intro x s _; rfl
  | succ n ih =>
    intro x s h
    have hx : isEdge x = true := h x (by omega)
    simp only [scanGo, hx, if_true, Option.getD_some]
    exact ih (x + 1) s (fun i hi => h i (by omega))

theorem scanRuns_all_false (isEdge : ℕ → Bool) (m : ℚ) (L : ℕ)
    (h : ∀ i, i < L → isEdge i = false) :
    scanRuns isEdge m L = [] := by
  unfold scanRuns
  exact scanGo_all_false isEdge m L L 0 (fun i hi => h i (by omega))

theorem scanRuns_all_true (isEdge : ℕ → Bool) (m : ℚ) (L : ℕ)
    (hL : 0 < L) (h : ∀ i, i < L → isEdge i = true) :
    scanRuns isEdge m L = if ((L : ℕ) : ℚ) > m then [(0, L)] else [] := by
  unfold scanRuns
  obtain ⟨n, rfl⟩ : ∃ n, L = n + 1 := ⟨L - 1, by omega⟩
  have h0 : isEdge 0 = true := h 0 (by omega)
  simp only [scanGo, h0, if_true, Option.getD_none]
  rw [scanGo_all_true isEdge m (n + 1) n 1 0 (fun i hi => h i (by omega))]
  simp

theorem lineImg_isEdgeH_white (y : ℕ) (hy1 : 1 ≤ y) (hy2 : y ≤ 198)
    (hout : ¬ (98 ≤ y ∧ y ≤ 101)) :
    ∀ x, x < 200 → isEdgeH lineImg 200 y x = false := by
  intro x hx
  unfold isEdgeH
  dsimp only
  rw [lineImg_lum x y hx, lineImg_lum x (y - 1) hx, lineImg_lum x (y + 1) hx]
  have hb : ¬ (99 ≤ y ∧ y ≤ 100) := by omega
  have hbm : ¬ (99 ≤ y - 1 ∧ y - 1 ≤ 100) := by omega
  have hbp : ¬ (99 ≤ y + 1 ∧ y + 1 ≤ 100) := by omega
  rw [if_neg hb, if_neg hbm, if_neg hbp]
  decide

theorem lineImg_isEdgeH_black (y : ℕ) (hy : 98 ≤ y ∧ y ≤ 101) :
    ∀ x, x < 200 → isEdgeH lineImg 200 y x = true := by
  intro x hx
  unfold isEdgeH
  dsimp only
  rw [lineImg_lum x y hx, lineImg_lum x (y - 1) hx, lineImg_lum x (y + 1) hx]
  obtain ⟨h1, h2⟩ := hy
  interval_cases y <;> decide

theorem lineImg_isEdgeV_false (x : ℕ) (hx1 : 1 ≤ x) (hx2 : x ≤ 198) :
    ∀ y, y < 200 → isEdgeV lineImg 200 y x = false := by
  intro y _
  unfold isEdgeV
  dsimp only
  rw [lineImg_lum x y (by omega), lineImg_lum (x - 1) y (by omega),
    lineImg_lum (x + 1) y (by omega)]
  by_cases hb : 99 ≤ y ∧ y ≤ 100
  · rw [if_pos hb]
    decide
  · rw [if_neg hb]
    decide

theorem lineImg_rawH :
    rawHSegments lineImg 200 200 16
      = [⟨98, 0, 200, 200⟩, ⟨99, 0, 200, 200⟩, ⟨100, 0, 200, 200⟩, ⟨101, 0, 200, 200⟩] := by
  unfold rawHSegments
  have h2 : (200 - 2 : ℕ) = 198 := rfl
  rw [h2]
  have hsplit : List.range' 1 198 = List.range' 1 97 ++ List.range' 98 4 ++ List.range' 102 97 := by
    rfl
  rw [hsplit, List.map_append, List.map_append, List.flatten_append, List.flatten_append]
  have hside : ∀ (s n : ℕ), (∀ y, y ∈ List.range' s n → 1 ≤ y ∧ y ≤ 198 ∧ ¬ (98 ≤ y ∧ y ≤ 101)) →
      ((List.range' s n).map (fun y =>
        (scanRuns (isEdgeH lineImg 200 y) 16 200).map
          (fun se => (⟨y, se.1, se.2, (se.2 - se.1 : ℕ)⟩ : Segment)))).flatten = [] := by
    intro s n hmem
    rw [List.flatten_eq_nil_iff]
    intro l hl
    rcases List.mem_map.mp hl with ⟨y, hy, rfl⟩
    obtain ⟨hy1, hy2, hy3⟩ := hmem y hy
    rw [scanRuns_all_false _ _ _ (lineImg_isEdgeH_white y hy1 hy2 hy3)]
    rfl
  rw [hside 1 97 (by
    intro y hy
    rcases List.mem_range'.mp hy with ⟨i, hi, rfl⟩
    omega)]
  rw [hside 102 97 (by
    intro y hy
    rcases List.mem_range'.mp hy with ⟨i, hi, rfl⟩
    omega)]
  have hrow : ∀ y, 98 ≤ y ∧ y ≤ 101 →
      scanRuns (isEdgeH lineImg 200 y) 16 200 = [(0, 200)] := by
    intro y hy
    rw [scanRuns_all_true _ _ _ (by omega) (lineImg_isEdgeH_black y hy)]
    norm_num
  have hmid : List.range' 98 4 = [98, 99, 100, 101] := rfl
  rw [hmid]
  simp only [List.map_cons, List.map_nil,
    hrow 98 (by omega), hrow 99 (by omega), hrow 100 (by omega), hrow 101 (by omega)]
  norm_num

theorem lineImg_rawV : rawVSegments lineImg 200 200 16 = [] := by
  unfold rawVSegments
  rw [List.flatten_eq_nil_iff]
  intro l hl
  rcases List.mem_map.mp hl with ⟨x, hx, rfl⟩
  have hxb : 1 ≤ x ∧ x ≤ 198 := by
    rcases List.mem_range'.mp hx with ⟨i, hi, rfl⟩
    constructor <;> omega
  rw [scanRuns_all_false _ _ _ (fun y hy => lineImg_isEdgeV_false x hxb.1 hxb.2 y hy)]
  rfl

/-- C8: on the synthetic 200×200 white image with a single pure-black 2px
horizontal line at y=100 spanning the full width, `detectGrid` returns
horizontal lines exactly at positions 0, 100, 200 (the detected line at 100
plus the two synthesized borders, ordered by pos ascending) and vertical
lines only at the borders 0 and 200. -/
theorem detection_determinism :
    detectGrid lineImg 200 200 =
      ⟨[⟨0, 0, 0, 200⟩, ⟨100, 1, 0, 200⟩, ⟨200, 0, 0, 200⟩],
       [⟨0, 0, 0, 200⟩, ⟨200, 0, 0, 200⟩]⟩ := by
  unfold detectGrid
  dsimp only
  have hm : max 16 (((min 200 200 : ℕ) : ℚ) / 100) = 16 := by norm_num
  rw [hm, lineImg_rawH, lineImg_rawV]
  with_unfolding_all rfl

end Pichop
